import Mathlib

/-!
Shallow embedding of `feedgen/ext/podcast_google.py` (class
`PodcstGoogleExtension`): the field store, its accessors and the RSS
renderer `extend_rss`, together with theorems about the grouping of
category elements, the per-field validation rules and the render guards.

Conventions of the embedding:
* Python `None` is `Option.none`; a raised `ValueError` is the `.error`
  side of an `Except String` result, paired with the (unchanged) state.
* Each accessor returns the new field store together with the value the
  Python method returns (which is always the stored field after the
  conditional update).
* Python truthiness of a string is `s != ""`; of an optional value,
  `none` is falsy.
-/

/-- A Python value that can travel through the `replace` parameter slot of
`google_category`: a boolean, or (in the deprecated two-positional-argument
call form) a subcategory string. -/
inductive PyVal where
  | bool (b : Bool)
  | str (s : String)
deriving DecidableEq, Repr

/-- Python truthiness of such a value. -/
def PyVal.truthy : PyVal → Bool
  | .bool b => b
  | .str s => s != ""

/-- The text the XML layer would show for the value when it is used as an
attribute (strings verbatim; booleans can only reach an attribute through
deprecated-API misuse and are rendered by their Python display form). -/
def PyVal.attrText : PyVal → String
  | .str s => s
  | .bool b => if b then "True" else "False"

/-- One entry of the category list: a Python dict with the optional keys
`cat` and `sub` (`ensure_format` restricts entries to these two keys). -/
structure CatDict where
  cat : Option String := none
  sub : Option PyVal := none
deriving DecidableEq, Repr

/-- The dict `{'name': ..., 'email': ...}` stored by `google_owner`; the
setter only ever stores both keys together. -/
structure OwnerData where
  name : String
  email : String
deriving DecidableEq, Repr

/-- The private fields set up in `PodcstGoogleExtension.__init__`; every
field starts as `None`. -/
structure FieldSet where
  author : Option String := none
  block : Option Bool := none
  category : Option (List CatDict) := none
  image : Option String := none
  explicit : Option String := none
  complete : Option String := none
  new_feed_url : Option String := none
  owner : Option OwnerData := none
  subtitle : Option String := none
  summary : Option String := none
deriving DecidableEq, Repr

/-- The empty field store created by `__init__`. -/
def emptyFieldSet : FieldSet := {}

/-- An XML element as built by `feedgen.util.xml_elem`: a qualified tag,
attributes, optional text and a list of child elements. -/
structure Elem where
  tag : String
  attrs : List (String × String)
  text : Option String
  children : List Elem

/-- The namespace URI returned by `extend_ns` and used by `extend_rss`. -/
def GOOGLE_NS : String := "http://www.google.com/schemas/play-podcasts/1.0"

/-- The qualified tag `'\x7b%s\x7d%s' % (GOOGLE_NS, localName)`. -/
def qual (localName : String) : String :=
  "\x7b" ++ GOOGLE_NS ++ "\x7d" ++ localName

/-- Attribute lookup on an element. -/
def Elem.getAttr (e : Elem) (k : String) : Option String :=
  List.lookup k e.attrs

/-- `channel.find('\x7b%s\x7dcategory[@text="%s"]' % (GOOGLE_NS, cat))`
matches an element by the qualified `category` tag and an exact `text`
attribute value. -/
def catMatches (cat : String) (e : Elem) : Bool :=
  e.tag == qual "category" && e.getAttr "text" == some cat

/-- The subcategory child elements produced for one entry: one
`<category text=sub>` element when `c.get('sub')` is truthy, none
otherwise. -/
def subElems : Option PyVal → List Elem
  | some v =>
      if v.truthy then [⟨qual "category", [("text", v.attrText)], none, []⟩]
      else []
  | none => []

/-- One pass of the category loop body over the channel's child list:
`channel.find(...)` locates the first child matching the category tag and
text; if one exists the subcategory children are appended to it in place,
otherwise a fresh `<category text=cat>` element (holding the subcategory
children) is appended at the end of the channel. -/
def catInsert (cat : String) (sub : List Elem) : List Elem → List Elem
  | [] => [⟨qual "category", [("text", cat)], none, sub⟩]
  | e :: es =>
      if catMatches cat e then { e with children := e.children ++ sub } :: es
      else e :: catInsert cat sub es

/-- One iteration of `for c in self.__google_category or []`: entries whose
`cat` is falsy (`None` or the empty string) are skipped (`continue`). -/
def catStep (l : List Elem) (c : CatDict) : List Elem :=
  match c.cat with
  | none => l
  | some cat => if cat == "" then l else catInsert cat (subElems c.sub) l

/-- The whole category loop of `extend_rss` over the channel's children. -/
def catFold (l : List Elem) (cs : List CatDict) : List Elem :=
  cs.foldl catStep l

/-- `if self.__google_author:` block of `extend_rss`. -/
def authorPart : Option String → List Elem
  | some a => if a != "" then [⟨qual "author", [], some a, []⟩] else []
  | none => []

/-- `if self.__google_block is not None:` block of `extend_rss`. -/
def blockPart : Option Bool → List Elem
  | some b => [⟨qual "block", [], some (if b then "yes" else "no"), []⟩]
  | none => []

/-- `if self.__google_image:` block of `extend_rss`. -/
def imagePart : Option String → List Elem
  | some i => if i != "" then [⟨qual "image", [("href", i)], none, []⟩] else []
  | none => []

/-- `if self.__google_explicit in ('yes', 'no', 'clean'):` block. -/
def explicitPart : Option String → List Elem
  | some e =>
      if e == "yes" || e == "no" || e == "clean" then
        [⟨qual "explicit", [], some e, []⟩]
      else []
  | none => []

/-- `if self.__google_complete in ('yes', 'no'):` block. -/
def completePart : Option String → List Elem
  | some c =>
      if c == "yes" || c == "no" then
        [⟨qual "complete", [], some c, []⟩]
      else []
  | none => []

/-- `if self.__google_new_feed_url:` block. -/
def newFeedUrlPart : Option String → List Elem
  | some u => if u != "" then [⟨qual "new-feed-url", [], some u, []⟩] else []
  | none => []

/-- `if self.__google_owner:` block: an `<owner>` element always holding
both a `<name>` and an `<email>` child. -/
def ownerPart : Option OwnerData → List Elem
  | some o =>
      [⟨qual "owner", [], none,
        [⟨qual "name", [], some o.name, []⟩,
         ⟨qual "email", [], some o.email, []⟩]⟩]
  | none => []

/-- `if self.__google_subtitle:` block. -/
def subtitlePart : Option String → List Elem
  | some s => if s != "" then [⟨qual "subtitle", [], some s, []⟩] else []
  | none => []

/-- `if self.__google_summary:` block. -/
def summaryPart : Option String → List Elem
  | some s => if s != "" then [⟨qual "summary", [], some s, []⟩] else []
  | none => []

/-- `extend_rss(self, rss_feed)`: the channel is `rss_feed[0]` (the first
child of the feed root; indexing an empty root would raise, embedded as
`none`).  The blocks run in the source's fixed order — author, block, the
category loop, image, explicit, complete, new-feed-url, owner, subtitle,
summary — each appending its elements to the channel, and the feed root is
returned. -/
def extend_rss (st : FieldSet) (rss_feed : Elem) : Option Elem :=
  match rss_feed.children with
  | [] => none
  | channel :: rest =>
      let ch0 := channel.children ++ authorPart st.author ++ blockPart st.block
      let ch1 := catFold ch0 (st.category.getD [])
      let ch2 := ch1 ++ imagePart st.image ++ explicitPart st.explicit
          ++ completePart st.complete ++ newFeedUrlPart st.new_feed_url
          ++ ownerPart st.owner ++ subtitlePart st.subtitle
          ++ summaryPart st.summary
      some { rss_feed with children := { channel with children := ch2 } :: rest }

/-- `google_author(self, google_author=None)`. -/
def google_author (st : FieldSet) (arg : Option String) : FieldSet × Option String :=
  match arg with
  | some a => ({ st with author := some a }, some a)
  | none => (st, st.author)

/-- `google_block(self, google_block=None)`. -/
def google_block (st : FieldSet) (arg : Option Bool) : FieldSet × Option Bool :=
  match arg with
  | some b => ({ st with block := some b }, some b)
  | none => (st, st.block)

/-- The polymorphic first argument of `google_category`: absent, the
deprecated category-name string, a single dict, or a list of dicts. -/
inductive CatArg where
  | noneArg
  | strArg (s : String)
  | dictArg (d : CatDict)
  | listArg (ds : List CatDict)
deriving DecidableEq, Repr

/-- Whether an entry carries a truthy `cat` value. -/
def hasCat (d : CatDict) : Bool :=
  match d.cat with
  | some s => s != ""
  | none => false

/-- Modelled from the spec: `ensure_format` lives in `feedgen/util.py`,
which is not among the analysed sources.  Per the spec, every accepted
mapping is filtered to the field set `\x7bcat, sub\x7d`, `cat` is required and
entries with an empty or absent `cat` are silently dropped at write time,
`sub` is optional. -/
def ensure_format (ds : List CatDict) : List CatDict :=
  ds.filter hasCat

/-- `google_category(self, google_category=None, replace=False, **kwargs)`.
The deprecated string form turns into a dict `\x7bcat, sub\x7d` (the `replace`
slot, when truthy, provides `sub`) and forces `replace = True`; keyword
fields stand in for a missing first argument; a non-`None` argument clears
the list when replacing (or when it was never set) and appends the
`ensure_format`-normalized entries. -/
def google_category (st : FieldSet) (arg : CatArg) (replace : PyVal)
    (kwargs : Option CatDict) : FieldSet × Option (List CatDict) :=
  let a1 : CatArg × PyVal :=
    match arg with
    | .strArg s =>
        (.dictArg { cat := some s,
                    sub := if replace.truthy then some replace else none },
         .bool true)
    | a => (a, replace)
  let a2 : CatArg :=
    match a1.1 with
    | .noneArg =>
        match kwargs with
        | some k => .dictArg k
        | none => .noneArg
    | a => a
  match a2 with
  | .noneArg => (st, st.category)
  | .strArg _ => (st, st.category)
  | .dictArg d =>
      let base := if a1.2.truthy || st.category.isNone then [] else st.category.getD []
      let l := base ++ ensure_format [d]
      ({ st with category := some l }, some l)
  | .listArg ds =>
      let base := if a1.2.truthy || st.category.isNone then [] else st.category.getD []
      let l := base ++ ensure_format ds
      ({ st with category := some l }, some l)

/-- Python `str.endswith`: a suffix test on the character sequence. -/
def pyEndsWith (s suffix : String) : Bool :=
  suffix.data.isSuffixOf s.data

/-- `google_image(self, google_image=None)`: the source constructs
`ValueError('Image file must be png or jpg')` for a name not ending in
`.jpg`/`.png` but never raises it, so the call always returns normally and
an invalid name leaves the field untouched. -/
def google_image (st : FieldSet) (arg : Option String) : FieldSet × Option String :=
  match arg with
  | some i =>
      if pyEndsWith i ".jpg" || pyEndsWith i ".png" then
        ({ st with image := some i }, some i)
      else
        (st, st.image)
  | none => (st, st.image)

/-- `google_explicit(self, google_explicit=None)`. -/
def google_explicit (st : FieldSet) (arg : Option String) :
    FieldSet × Except String (Option String) :=
  match arg with
  | some v =>
      if v == "" || v == "yes" || v == "no" || v == "clean" then
        ({ st with explicit := some v }, .ok (some v))
      else
        (st, .error "Invalid value for explicit tag")
  | none => (st, .ok st.explicit)

/-- `google_complete(self, google_complete=None)`: membership in
`('yes', 'no', '', True, False)` admits exactly these strings and both
booleans; a boolean is then normalized to `"yes"`/`"no"` before storing. -/
def google_complete (st : FieldSet) (arg : Option PyVal) :
    FieldSet × Except String (Option String) :=
  match arg with
  | some (.str s) =>
      if s == "yes" || s == "no" || s == "" then
        ({ st with complete := some s }, .ok (some s))
      else
        (st, .error "Invalid value for complete tag")
  | some (.bool b) =>
      ({ st with complete := some (if b then "yes" else "no") },
       .ok (some (if b then "yes" else "no")))
  | none => (st, .ok st.complete)

/-- `google_new_feed_url(self, google_new_feed_url=None)`. -/
def google_new_feed_url (st : FieldSet) (arg : Option String) :
    FieldSet × Option String :=
  match arg with
  | some u => ({ st with new_feed_url := some u }, some u)
  | none => (st, st.new_feed_url)

/-- `google_owner(self, name=None, email=None)`: with `name` present, both
truthy stores the pair, both falsy clears the owner, and a mixed pair
raises; with `name` absent the call is a pure getter whatever `email` is. -/
def google_owner (st : FieldSet) (nm : Option String) (em : Option String) :
    FieldSet × Except String (Option OwnerData) :=
  match nm with
  | none => (st, .ok st.owner)
  | some n =>
      match em with
      | some e =>
          if n != "" && e != "" then
            ({ st with owner := some ⟨n, e⟩ }, .ok (some ⟨n, e⟩))
          else if n == "" && e == "" then
            ({ st with owner := none }, .ok none)
          else
            (st, .error "Both name and email have to be set.")
      | none =>
          if n == "" then
            ({ st with owner := none }, .ok none)
          else
            (st, .error "Both name and email have to be set.")

/-- `google_subtitle(self, google_subtitle=None)`. -/
def google_subtitle (st : FieldSet) (arg : Option String) :
    FieldSet × Option String :=
  match arg with
  | some s => ({ st with subtitle := some s }, some s)
  | none => (st, st.subtitle)

/-- `google_summary(self, google_summary=None)`. -/
def google_summary (st : FieldSet) (arg : Option String) :
    FieldSet × Option String :=
  match arg with
  | some s => ({ st with summary := some s }, some s)
  | none => (st, st.summary)

/-- A feed root with one empty channel, the smallest tree `extend_rss`
accepts. -/
def emptyFeed : Elem :=
  ⟨"rss", [], none, [⟨"channel", [], none, []⟩]⟩

/-- The specification-side grouping of category entries: an association
list from distinct `cat` text (in first-seen order) to the accumulated
subcategory child elements (in entry order). -/
def addToGroups (g : List (String × List Elem)) (cat : String) (sub : List Elem) :
    List (String × List Elem) :=
  match g with
  | [] => [(cat, sub)]
  | (c, ss) :: rest =>
      if c == cat then (c, ss ++ sub) :: rest
      else (c, ss) :: addToGroups rest cat sub

/-- One category entry applied to the grouping (entries with a falsy `cat`
contribute nothing). -/
def groupStep (g : List (String × List Elem)) (c : CatDict) :
    List (String × List Elem) :=
  match c.cat with
  | none => g
  | some cat => if cat == "" then g else addToGroups g cat (subElems c.sub)

/-- The grouping of a whole stored category list. -/
def groupsOf (cs : List CatDict) : List (String × List Elem) :=
  cs.foldl groupStep []

/-- The `<category text=cat>` element one group renders to. -/
def mkCatElem (p : String × List Elem) : Elem :=
  ⟨qual "category", [("text", p.1)], none, p.2⟩

/-- The field store holding the empty string in every free-form string
field that `extend_rss` guards by truthiness. -/
def emptyStrFields : FieldSet :=
  { author := some "", image := some "", new_feed_url := some "",
    subtitle := some "", summary := some "" }

theorem option_beq_some (a b : String) :
    ((some a == some b : Bool)) = (a == b) := rfl

theorem catMatches_mkCatElem (cat : String) (p : String × List Elem) :
    catMatches cat (mkCatElem p) = (p.1 == cat) := by
  simp [catMatches, mkCatElem, Elem.getAttr, List.lookup, option_beq_some]

theorem catInsert_map (cat : String) (sub : List Elem)
    (g : List (String × List Elem)) :
    catInsert cat sub (g.map mkCatElem) = (addToGroups g cat sub).map mkCatElem := by
  induction g with
  | nil => rfl
  | cons p rest ih =>
      obtain ⟨c, ss⟩ := p
      simp only [List.map_cons, catInsert, catMatches_mkCatElem, addToGroups]
      cases h : (c == cat) with
      | true => simp [mkCatElem]
      | false => simp [mkCatElem, ih]

theorem catStep_map (g : List (String × List Elem)) (c : CatDict) :
    catStep (g.map mkCatElem) c = (groupStep g c).map mkCatElem := by
  cases hc : c.cat with
  | none => simp [catStep, groupStep, hc]
  | some cat =>
      cases h : (cat == "") with
      | true => simp [catStep, groupStep, hc, h]
      | false => simp [catStep, groupStep, hc, h, catInsert_map]

theorem catFold_map (cs : List CatDict) (g : List (String × List Elem)) :
    catFold (g.map mkCatElem) cs = (cs.foldl groupStep g).map mkCatElem := by
  induction cs generalizing g with
  | nil => rfl
  | cons c cs ih =>
      show catFold (catStep (g.map mkCatElem) c) cs = _
      rw [catStep_map]
      exact ih (groupStep g c)

theorem catFold_groupsOf (cs : List CatDict) :
    catFold [] cs = (groupsOf cs).map mkCatElem :=
  catFold_map cs []

theorem catInsert_append_of_no_cat_tag (cat : String) (sub : List Elem)
    (h l : List Elem) (hh : ∀ e ∈ h, (e.tag == qual "category") = false) :
    catInsert cat sub (h ++ l) = h ++ catInsert cat sub l := by
  induction h with
  | nil => rfl
  | cons e es ih =>
      have he : catMatches cat e = false := by
        simp [catMatches, hh e (List.mem_cons_self e es)]
      simp only [List.cons_append, catInsert, he, Bool.false_eq_true, if_false]
      exact congrArg (e :: ·) (ih fun x hx => hh x (List.mem_cons_of_mem e hx))

theorem catStep_append_of_no_cat_tag (h l : List Elem) (c : CatDict)
    (hh : ∀ e ∈ h, (e.tag == qual "category") = false) :
    catStep (h ++ l) c = h ++ catStep l c := by
  cases hc : c.cat with
  | none => simp [catStep, hc]
  | some cat =>
      cases hcat : (cat == "") with
      | true => simp [catStep, hc, hcat]
      | false => simp [catStep, hc, hcat, catInsert_append_of_no_cat_tag cat _ h l hh]

theorem catFold_append_of_no_cat_tag (cs : List CatDict) (h l : List Elem)
    (hh : ∀ e ∈ h, (e.tag == qual "category") = false) :
    catFold (h ++ l) cs = h ++ catFold l cs := by
  induction cs generalizing l with
  | nil => rfl
  | cons c cs ih =>
      show catFold (catStep (h ++ l) c) cs = _
      rw [catStep_append_of_no_cat_tag h l c hh]
      exact ih (catStep l c)

theorem authorPart_no_cat_tag (a : Option String) :
    ∀ e ∈ authorPart a, (e.tag == qual "category") = false := by
  cases a with
  | none => simp [authorPart]
  | some s =>
      cases h : (s != "") with
      | true => simp [authorPart, h]; decide
      | false => simp [authorPart, h]

theorem blockPart_no_cat_tag (b : Option Bool) :
    ∀ e ∈ blockPart b, (e.tag == qual "category") = false := by
  cases b with
  | none => simp [blockPart]
  | some bv => simp [blockPart]; decide

theorem mem_keys_addToGroups (g : List (String × List Elem)) (cat x : String)
    (sub : List Elem) (hx : x ∈ (addToGroups g cat sub).map Prod.fst) :
    x ∈ g.map Prod.fst ∨ x = cat := by
  induction g with
  | nil => simpa [addToGroups] using hx
  | cons p rest ih =>
      obtain ⟨c, ss⟩ := p
      simp only [addToGroups] at hx
      cases h : (c == cat) with
      | true =>
          rw [h] at hx
          simp only [if_true] at hx
          simpa using Or.inl (by simpa using hx)
      | false =>
          rw [h] at hx
          simp only [Bool.false_eq_true, if_false, List.map_cons, List.mem_cons] at hx
          rcases hx with hx | hx
          · exact Or.inl (by simp [hx])
          · rcases ih hx with h1 | h1
            · exact Or.inl (by simp [List.mem_cons]; right; simpa using h1)
            · exact Or.inr h1

theorem nodup_keys_addToGroups (g : List (String × List Elem)) (cat : String)
    (sub : List Elem) (hg : (g.map Prod.fst).Nodup) :
    ((addToGroups g cat sub).map Prod.fst).Nodup := by
  induction g with
  | nil => simp [addToGroups]
  | cons p rest ih =>
      obtain ⟨c, ss⟩ := p
      simp only [List.map_cons, List.nodup_cons] at hg
      simp only [addToGroups]
      cases h : (c == cat) with
      | true => simpa [List.nodup_cons] using hg
      | false =>
          simp only [Bool.false_eq_true, if_false, List.map_cons, List.nodup_cons]
          refine ⟨fun hc => ?_, ih hg.2⟩
          rcases mem_keys_addToGroups rest cat c sub hc with h1 | h1
          · exact hg.1 h1
          · exact absurd (by simp [h1] : (c == cat) = true) (by simp [h])

theorem nodup_keys_groupStep (g : List (String × List Elem)) (c : CatDict)
    (hg : (g.map Prod.fst).Nodup) : ((groupStep g c).map Prod.fst).Nodup := by
  cases hc : c.cat with
  | none => simpa [groupStep, hc] using hg
  | some cat =>
      cases h : (cat == "") with
      | true => simpa [groupStep, hc, h] using hg
      | false =>
          simpa [groupStep, hc, h] using nodup_keys_addToGroups g cat (subElems c.sub) hg

theorem nodup_keys_groupsOf (cs : List CatDict) :
    ((groupsOf cs).map Prod.fst).Nodup := by
  suffices h : ∀ g : List (String × List Elem), (g.map Prod.fst).Nodup →
      ((cs.foldl groupStep g).map Prod.fst).Nodup from h [] (by simp)
  induction cs with
  | nil => exact fun g hg => hg
  | cons c cs ih =>
      intro g hg
      exact ih (groupStep g c) (nodup_keys_groupStep g c hg)

/-- C1, counterexample: on the stored list
`[\x7bcat: "Arts", sub: "Design"\x7d, \x7bcat: "Arts", sub: "Design"\x7d]` the rendered
`Arts` category element carries two children with the identical text
`Design` — the renderer looks up only the parent `cat` element and appends
a fresh subcategory child each time, so duplicate sub-values are not
collapsed as the claim states. -/
theorem extendRss_duplicate_sub_counterexample :
    extend_rss
        { category := some [⟨some "Arts", some (.str "Design")⟩,
                            ⟨some "Arts", some (.str "Design")⟩] }
        emptyFeed
      = some ⟨"rss", [], none,
          [⟨"channel", [], none,
            [⟨qual "category", [("text", "Arts")], none,
              [⟨qual "category", [("text", "Design")], none, []⟩,
               ⟨qual "category", [("text", "Design")], none, []⟩]⟩]⟩]⟩ := by
  rfl

/-- C1 (amended): for every stored category list, rendering into a feed
with an empty channel produces exactly one `<category text=cat>` element
per distinct non-empty `cat` value in first-seen order (the keys of the
grouping are nodup), each entry's truthy `sub` rendered as a child of the
matching `cat` element in entry order; duplicate identical sub-values
under the same `cat` are kept as repeated children, not collapsed. -/
theorem extendRss_category_grouping (cs : List CatDict) :
    extend_rss { category := some cs } emptyFeed
        = some ⟨"rss", [], none,
            [⟨"channel", [], none, (groupsOf cs).map mkCatElem⟩]⟩
      ∧ ((groupsOf cs).map Prod.fst).Nodup := by
  refine ⟨?_, nodup_keys_groupsOf cs⟩
  have h : extend_rss { category := some cs } emptyFeed
      = some ⟨"rss", [], none,
          [⟨"channel", [], none,
            catFold [] cs ++ [] ++ [] ++ [] ++ [] ++ [] ++ [] ++ []⟩]⟩ := rfl
  rw [h, catFold_groupsOf]
  simp

/-- C8, counterexample: with the author field set to the empty string the
field is currently set (non-absent: the getter returns `some ""`), yet
`extend_rss` appends no element at all for it — rendering guards by
truthiness, so "exactly one namespaced element per currently-set field" is
false. -/
theorem extendRss_set_field_without_element_counterexample :
    (google_author { author := some "" } none).2 = some ""
  ∧ extend_rss { author := some "" } emptyFeed = some emptyFeed :=
  ⟨rfl, rfl⟩

/-- C8 (amended): `extend_rss` locates the channel as the first child of
the feed root (an empty root yields no result) and appends elements to it
in the fixed field order author, block, categories, image, explicit,
complete, new-feed-url, owner, subtitle, summary — one element per field
whose stored value passes its render guard (truthiness for the string
fields and the owner, non-absence for block, membership in the enumerated
render values for explicit and complete, and one element per distinct
non-empty `cat` for the categories) — then returns the feed root. -/
theorem extendRss_render_decomposition (st : FieldSet) (ft : String)
    (fa : List (String × String)) (ftx : Option String) (ct : String)
    (ca : List (String × String)) (ctx : Option String) (kids rest : List Elem)
    (hk : ∀ e ∈ kids, (e.tag == qual "category") = false) :
    extend_rss st ⟨ft, fa, ftx, ⟨ct, ca, ctx, kids⟩ :: rest⟩
      = some ⟨ft, fa, ftx,
          ⟨ct, ca, ctx,
            kids ++ authorPart st.author ++ blockPart st.block
              ++ (groupsOf (st.category.getD [])).map mkCatElem
              ++ imagePart st.image ++ explicitPart st.explicit
              ++ completePart st.complete ++ newFeedUrlPart st.new_feed_url
              ++ ownerPart st.owner ++ subtitlePart st.subtitle
              ++ summaryPart st.summary⟩ :: rest⟩ := by
  have h : extend_rss st ⟨ft, fa, ftx, ⟨ct, ca, ctx, kids⟩ :: rest⟩
      = some ⟨ft, fa, ftx,
          ⟨ct, ca, ctx,
            catFold (kids ++ authorPart st.author ++ blockPart st.block)
                (st.category.getD [])
              ++ imagePart st.image ++ explicitPart st.explicit
              ++ completePart st.complete ++ newFeedUrlPart st.new_feed_url
              ++ ownerPart st.owner ++ subtitlePart st.subtitle
              ++ summaryPart st.summary⟩ :: rest⟩ := rfl
  rw [h]
  have hfree : ∀ e ∈ kids ++ authorPart st.author ++ blockPart st.block,
      (e.tag == qual "category") = false := by
    intro e he
    rcases List.mem_append.mp he with he | he
    · rcases List.mem_append.mp he with he | he
      · exact hk e he
      · exact authorPart_no_cat_tag st.author e he
    · exact blockPart_no_cat_tag st.block e he
  have h2 := catFold_append_of_no_cat_tag (st.category.getD [])
      (kids ++ authorPart st.author ++ blockPart st.block) [] hfree
  rw [List.append_nil] at h2
  rw [h2, catFold_groupsOf]

/-- Witness for the render decomposition at a concrete input. -/
theorem extendRss_render_decomposition_witness :
    extend_rss { author := some "June" } emptyFeed
      = some ⟨"rss", [], none,
          [⟨"channel", [], none, [⟨qual "author", [], some "June", []⟩]⟩]⟩ := by
  have h := extendRss_render_decomposition { author := some "June" } "rss" [] none
      "channel" [] none [] [] (by simp)
  simpa [authorPart, blockPart, groupsOf, imagePart, explicitPart, completePart,
    newFeedUrlPart, ownerPart, subtitlePart, summaryPart, emptyFeed] using h

/-- C9: setting author, new-feed-url, subtitle or summary to the empty
string stores it, and on a store holding the empty string in author,
image, new-feed-url, subtitle and summary every getter returns `some ""`
while `extend_rss` appends no element for any of them — the render guards
test truthiness, not presence. -/
theorem emptyString_fields_stored_not_rendered :
    (google_author emptyFieldSet (some "")).1.author = some ""
  ∧ (google_new_feed_url emptyFieldSet (some "")).1.new_feed_url = some ""
  ∧ (google_subtitle emptyFieldSet (some "")).1.subtitle = some ""
  ∧ (google_summary emptyFieldSet (some "")).1.summary = some ""
  ∧ (google_author emptyStrFields none).2 = some ""
  ∧ (google_image emptyStrFields none).2 = some ""
  ∧ (google_new_feed_url emptyStrFields none).2 = some ""
  ∧ (google_subtitle emptyStrFields none).2 = some ""
  ∧ (google_summary emptyStrFields none).2 = some ""
  ∧ extend_rss emptyStrFields emptyFeed = some emptyFeed :=
  ⟨rfl, rfl, rfl, rfl, rfl, rfl, rfl, rfl, rfl, rfl⟩

/-- C10: calling every accessor with all parameters left at their `None`
defaults returns the stored value and leaves the whole field store
unchanged; in particular passing `None` never clears a set field (the
owner accessor is a pure getter even when only `email` is supplied). -/
theorem noArg_accessors_are_getters (st : FieldSet) :
    google_author st none = (st, st.author)
  ∧ google_block st none = (st, st.block)
  ∧ google_category st .noneArg (.bool false) none = (st, st.category)
  ∧ google_image st none = (st, st.image)
  ∧ google_explicit st none = (st, .ok st.explicit)
  ∧ google_complete st none = (st, .ok st.complete)
  ∧ google_new_feed_url st none = (st, st.new_feed_url)
  ∧ google_owner st none none = (st, .ok st.owner)
  ∧ google_owner st none (some "ignored") = (st, .ok st.owner)
  ∧ google_subtitle st none = (st, st.subtitle)
  ∧ google_summary st none = (st, st.summary) :=
  ⟨rfl, rfl, rfl, rfl, rfl, rfl, rfl, rfl, rfl, rfl, rfl⟩

/-- C2: `google_image` never signals an error (its result type carries no
error case, matching the source, which builds the `ValueError` but does
not raise it): a name not ending in `.jpg`/`.png` leaves the field
unchanged and returns the previously stored value; a name ending in
`.jpg`/`.png` is stored and returned. -/
theorem google_image_validation (st : FieldSet) (s : String) :
    ((pyEndsWith s ".jpg" || pyEndsWith s ".png") = false →
        google_image st (some s) = (st, st.image))
  ∧ ((pyEndsWith s ".jpg" || pyEndsWith s ".png") = true →
        google_image st (some s) = ({ st with image := some s }, some s)) := by
  constructor
  · intro h; simp [google_image, h]
  · intro h; simp [google_image, h]

/-- Witness for the image validation at concrete file names. -/
theorem google_image_validation_witness :
    google_image emptyFieldSet (some "cover.gif") = (emptyFieldSet, none)
  ∧ google_image emptyFieldSet (some "cover.jpg")
      = ({ image := some "cover.jpg" }, some "cover.jpg") :=
  ⟨(google_image_validation emptyFieldSet "cover.gif").1 (by decide),
   (google_image_validation emptyFieldSet "cover.jpg").2 (by decide)⟩

/-- C5: setting explicit to one of `"", "yes", "no", "clean"` stores it and
reading it back returns the same value; any other string makes the call
fail with the validation error while the store is returned unchanged. -/
theorem google_explicit_validation (st : FieldSet) (v : String) :
    ((v == "" || v == "yes" || v == "no" || v == "clean") = true →
        google_explicit st (some v) = ({ st with explicit := some v }, .ok (some v))
      ∧ (google_explicit { st with explicit := some v } none).2 = .ok (some v))
  ∧ ((v == "" || v == "yes" || v == "no" || v == "clean") = false →
        google_explicit st (some v) = (st, .error "Invalid value for explicit tag")) := by
  constructor
  · intro h; exact ⟨by simp [google_explicit, h], rfl⟩
  · intro h; simp [google_explicit, h]

/-- Witness for the explicit validation at concrete values. -/
theorem google_explicit_validation_witness :
    google_explicit emptyFieldSet (some "clean")
        = ({ explicit := some "clean" }, .ok (some "clean"))
  ∧ google_explicit emptyFieldSet (some "maybe")
      = (emptyFieldSet, .error "Invalid value for explicit tag") :=
  ⟨((google_explicit_validation emptyFieldSet "clean").1 (by decide)).1,
   (google_explicit_validation emptyFieldSet "maybe").2 (by decide)⟩

/-- C6: a boolean complete value is normalized to and returns
`"yes"`/`"no"`; the strings `"", "yes", "no"` are stored verbatim; any
other string fails with the validation error leaving the store unchanged. -/
theorem google_complete_validation (st : FieldSet) :
    (∀ b : Bool, google_complete st (some (.bool b))
        = ({ st with complete := some (if b then "yes" else "no") },
           .ok (some (if b then "yes" else "no"))))
  ∧ (∀ s : String, (s == "yes" || s == "no" || s == "") = true →
        google_complete st (some (.str s)) = ({ st with complete := some s }, .ok (some s)))
  ∧ (∀ s : String, (s == "yes" || s == "no" || s == "") = false →
        google_complete st (some (.str s)) = (st, .error "Invalid value for complete tag")) := by
  refine ⟨fun b => rfl, fun s h => by simp [google_complete, h],
    fun s h => by simp [google_complete, h]⟩

/-- Witness for the complete validation at concrete values. -/
theorem google_complete_validation_witness :
    google_complete emptyFieldSet (some (.bool true))
        = ({ complete := some "yes" }, .ok (some "yes"))
  ∧ google_complete emptyFieldSet (some (.str "no"))
      = ({ complete := some "no" }, .ok (some "no"))
  ∧ google_complete emptyFieldSet (some (.str "later"))
      = (emptyFieldSet, .error "Invalid value for complete tag") :=
  ⟨(google_complete_validation emptyFieldSet).1 true,
   (google_complete_validation emptyFieldSet).2.1 "no" (by decide),
   (google_complete_validation emptyFieldSet).2.2 "later" (by decide)⟩

/-- C7: with the name argument present, a truthy name-and-email pair is
stored whole, a falsy pair clears the owner to absent, and a mixed pair
(exactly one truthy, email possibly absent) fails with the validation
error leaving the store unchanged — the owner is never half-populated. -/
theorem google_owner_validation (st : FieldSet) (n e : String) :
    ((n != "" && e != "") = true →
        google_owner st (some n) (some e)
          = ({ st with owner := some ⟨n, e⟩ }, .ok (some ⟨n, e⟩)))
  ∧ google_owner st (some "") (some "") = ({ st with owner := none }, .ok none)
  ∧ google_owner st (some "") none = ({ st with owner := none }, .ok none)
  ∧ ((n == "") = true → (e != "") = true →
        google_owner st (some n) (some e)
          = (st, .error "Both name and email have to be set."))
  ∧ ((n != "") = true → (e == "") = true →
        google_owner st (some n) (some e)
          = (st, .error "Both name and email have to be set."))
  ∧ ((n != "") = true →
        google_owner st (some n) none
          = (st, .error "Both name and email have to be set.")) := by
  refine ⟨fun h => by simp [google_owner, h], rfl, rfl, ?_, ?_, ?_⟩
  · intro h1 h2
    have hn : n = "" := by simpa using h1
    have he : e ≠ "" := by simpa using h2
    subst hn
    simp [google_owner, he]
  · intro h1 h2
    have hn : n ≠ "" := by simpa using h1
    have he : e = "" := by simpa using h2
    subst he
    simp [google_owner, hn]
  · intro h1
    have hn : n ≠ "" := by simpa using h1
    simp [google_owner, hn]

/-- Witness for the owner validation at concrete values. -/
theorem google_owner_validation_witness :
    google_owner emptyFieldSet (some "Alice") (some "a@example.com")
        = ({ owner := some ⟨"Alice", "a@example.com"⟩ },
           .ok (some ⟨"Alice", "a@example.com"⟩))
  ∧ google_owner emptyFieldSet (some "Alice") (some "")
      = (emptyFieldSet, .error "Both name and email have to be set.") :=
  ⟨(google_owner_validation emptyFieldSet "Alice" "a@example.com").1 (by decide),
   (google_owner_validation emptyFieldSet "Alice" "").2.2.2.2.1 (by decide) (by decide)⟩

/-- C4, counterexample: with the empty string as the subcategory argument
in the replace slot, the legacy call stores an entry without a `sub` key
while the mapping form with replace=true keeps `sub = ""`; the two calls
leave different stored lists and return different values, so the claimed
equivalence fails for that subcategory string. -/
theorem legacy_category_counterexample :
    google_category emptyFieldSet (.strArg "Arts") (.str "") none
        = ({ category := some [⟨some "Arts", none⟩] }, some [⟨some "Arts", none⟩])
  ∧ google_category emptyFieldSet
        (.dictArg ⟨some "Arts", some (.str "")⟩) (.bool true) none
      = ({ category := some [⟨some "Arts", some (.str "")⟩] },
         some [⟨some "Arts", some (.str "")⟩])
  ∧ ((some [(⟨some "Arts", none⟩ : CatDict)] : Option (List CatDict))
        = some [⟨some "Arts", some (.str "")⟩] → False) :=
  ⟨rfl, rfl, by decide⟩

/-- C4 (amended): with a non-empty subcategory string in the replace slot
the legacy two-argument form leaves the same state and returns the same
value as the mapping form with replace=true; with the slot left at its
default `False`, or holding the empty string, the name-only legacy call
still behaves as a replace of the mapping form without a `sub` key. -/
theorem legacy_category_equiv (st : FieldSet) (cat sub : String) :
    ((sub != "") = true →
        google_category st (.strArg cat) (.str sub) none
          = google_category st (.dictArg ⟨some cat, some (.str sub)⟩) (.bool true) none)
  ∧ google_category st (.strArg cat) (.bool false) none
      = google_category st (.dictArg ⟨some cat, none⟩) (.bool true) none
  ∧ google_category st (.strArg cat) (.str "") none
      = google_category st (.dictArg ⟨some cat, none⟩) (.bool true) none := by
  refine ⟨fun h => ?_, rfl, rfl⟩
  simp [google_category, PyVal.truthy, h]

/-- Witness for the legacy-form equivalence at a concrete call. -/
theorem legacy_category_equiv_witness :
    google_category emptyFieldSet (.strArg "Arts") (.str "Design") none
      = google_category emptyFieldSet
          (.dictArg ⟨some "Arts", some (.str "Design")⟩) (.bool true) none :=
  (legacy_category_equiv emptyFieldSet "Arts" "Design").1 (by decide)

theorem mem_catResult (old : List CatDict) (b : Bool) (ds : List CatDict)
    (d : CatDict) (hd : d ∈ (if b then [] else old) ++ ensure_format ds) :
    d ∈ old ∨ hasCat d = true := by
  rcases List.mem_append.mp hd with h | h
  · cases b with
    | true => simp at h
    | false => exact Or.inl h
  · exact Or.inr (List.mem_filter.mp h).2

/-- C3: `google_category` preserves the invariant that every stored entry
has a non-empty `cat` (starting from any store satisfying it, with any
argument shape), and an entry whose `cat` is empty or absent is dropped at
write time — appending it leaves the stored list exactly as it was, rather
than storing it for the renderer to skip. -/
theorem google_category_cat_invariant (st : FieldSet) (arg : CatArg)
    (rep : PyVal) (kw : Option CatDict)
    (hst : ∀ d ∈ st.category.getD [], hasCat d = true) :
    (∀ d ∈ (google_category st arg rep kw).1.category.getD [], hasCat d = true)
  ∧ (∀ d : CatDict, hasCat d = false →
      (google_category st (.dictArg d) (.bool false) none).1.category.getD []
        = st.category.getD []) := by
  constructor
  · intro d hd
    have hOr : d ∈ st.category.getD [] ∨ hasCat d = true := by
      cases arg with
      | noneArg =>
          cases kw with
          | none => exact Or.inl hd
          | some k => exact mem_catResult _ _ _ _ hd
      | strArg s => exact mem_catResult _ _ _ _ hd
      | dictArg d' => exact mem_catResult _ _ _ _ hd
      | listArg ds => exact mem_catResult _ _ _ _ hd
    rcases hOr with h | h
    · exact hst d h
    · exact h
  · intro d hdf
    cases hc : st.category with
    | none =>
        simp [google_category, ensure_format, List.filter_cons, hdf, hc, PyVal.truthy]
    | some l =>
        simp [google_category, ensure_format, List.filter_cons, hdf, hc, PyVal.truthy]

/-- Witness for the category invariant: appending an entry without a `cat`
to a store holding one valid entry leaves the stored list unchanged. -/
theorem google_category_cat_invariant_witness :
    (google_category { category := some [⟨some "Arts", none⟩] }
        (.dictArg ⟨none, some (.str "Design")⟩) (.bool false) none).1.category.getD []
      = [⟨some "Arts", none⟩] :=
  (google_category_cat_invariant { category := some [⟨some "Arts", none⟩] }
      .noneArg (.bool false) none (by decide)).2 ⟨none, some (.str "Design")⟩ (by decide)
